import Mathlib

/-!
Shallow embedding of the HNSW fixed-size-chunk memory pool
(src/hnswpool.c): pool creation, pool allocation with fallback to the
general-purpose allocator, and pool free with misuse detection.

Modelling conventions:
* machine addresses and byte values are `Nat`; the null pointer is `0`;
* the C `Size` type is 64-bit unsigned, so `Size` arithmetic is `Nat`
  arithmetic reduced `% 2 ^ 64` where the C code can wrap;
* `freelist_count` is a C `int`, modelled as `Int` (so the claim that it
  never goes negative is a real statement, not a typing triviality);
* the host allocator (`palloc0` / `pfree`) is modelled by a `Heap` record:
  a byte-contents function, a fresh-address counter from which fallback
  allocations are carved, and the list of pointers handed to `pfree`.
-/

namespace HnswPool

/-- The modulus of the 64-bit `Size` type. -/
def SIZE_MOD : Nat := 2 ^ 64

/-- `MAXALIGN` from the host headers: round up to the platform alignment
unit (8 bytes), computed in `Size` arithmetic as the C macro does. -/
def MAXALIGN (x : Nat) : Nat := (((x + 7) % SIZE_MOD) / 8) * 8

/-- The pool handle struct `HnswMemoryPool` of `hnswpool.c`.
`pool_memory` is the base address the host allocator gave the backing
buffer; `freelist` is the pointer array (length `total_chunks`), of which
the first `freelist_count` entries are the live free list. -/
structure HnswMemoryPool where
  chunk_size : Nat
  total_chunks : Nat
  freelist_count : Int
  pool_memory : Nat
  freelist : List Nat
  enabled : Bool
deriving DecidableEq

/-- The host allocator state: byte contents of memory, the next address a
fresh general-purpose allocation will be placed at, and the pointers that
have been handed to the general-purpose deallocator. -/
structure Heap where
  contents : Nat → Nat
  nextFresh : Nat
  freed : List Nat

/-- `MemSet(p, 0, n)`: zero the `n` bytes starting at `p`, leaving every
other byte unchanged. -/
def MemSet (m : Nat → Nat) (p n : Nat) : Nat → Nat :=
  fun a => if p ≤ a ∧ a < p + n then 0 else m a

/-- `palloc0(size)`: a fresh, fully zeroed buffer of `size` bytes from the
general-purpose allocator.  Fresh addresses come from `nextFresh`, which
advances so that distinct allocations never overlap. -/
def palloc0 (st : Heap) (size : Nat) : Nat × Heap :=
  (st.nextFresh,
   { contents := MemSet st.contents st.nextFresh size
     nextFresh := st.nextFresh + max size 1
     freed := st.freed })

/-- `pfree(p)`: hand `p` back to the general-purpose deallocator. -/
def pfree (st : Heap) (p : Nat) : Heap :=
  { st with freed := p :: st.freed }

/-- `HnswCreatePool(chunk_size, initial_chunks, parent_context)`.
`pool_base` is the address the host allocator gives the backing buffer.
The overflow check is the inverse-division test of the C code, performed
on the wrapped `Size` product and only when `initial_chunks > 0`. -/
def HnswCreatePool (chunk_size : Nat) (initial_chunks : Nat) (pool_base : Nat) :
    Except String HnswMemoryPool :=
  if 0 < initial_chunks ∧
      ((MAXALIGN chunk_size * initial_chunks) % SIZE_MOD) / initial_chunks ≠
        MAXALIGN chunk_size then
    Except.error "memory pool size too large"
  else
    Except.ok
      { chunk_size := MAXALIGN chunk_size
        total_chunks := initial_chunks
        freelist_count := (initial_chunks : Int)
        pool_memory := pool_base
        freelist :=
          (List.range initial_chunks).map (fun i => pool_base + i * MAXALIGN chunk_size)
        enabled := true }

/-- `HnswPoolAlloc(pool, size)`: returns the allocated pointer, the updated
pool handle and the updated heap.  Fallback condition exactly as in the C
code: null handle, disabled, oversized request, or empty free list. -/
def HnswPoolAlloc (pool : Option HnswMemoryPool) (size : Nat) (st : Heap) :
    Nat × Option HnswMemoryPool × Heap :=
  match pool with
  | none => ((palloc0 st size).1, none, (palloc0 st size).2)
  | some pl =>
      if pl.enabled = false ∨ pl.chunk_size < size ∨ pl.freelist_count = 0 then
        ((palloc0 st size).1, some pl, (palloc0 st size).2)
      else
        (pl.freelist.getD (pl.freelist_count - 1).toNat 0,
         some { pl with freelist_count := pl.freelist_count - 1 },
         { st with
             contents :=
               MemSet st.contents (pl.freelist.getD (pl.freelist_count - 1).toNat 0) size })

/-- `HnswPoolFree(pool, ptr)`: returns the updated pool handle and heap.
The branch structure mirrors the C code: null/disabled/null-pointer
fallback, pool-bounds test, free-list-overflow guard, double-free scan,
then the push. -/
def HnswPoolFree (pool : Option HnswMemoryPool) (ptr : Nat) (st : Heap) :
    Option HnswMemoryPool × Heap :=
  match pool with
  | none => (none, if ptr ≠ 0 then pfree st ptr else st)
  | some pl =>
      if pl.enabled = false ∨ ptr = 0 then
        (some pl, if ptr ≠ 0 then pfree st ptr else st)
      else if ptr < pl.pool_memory ∨
          pl.pool_memory + pl.chunk_size * pl.total_chunks ≤ ptr then
        (some pl, pfree st ptr)
      else if (pl.total_chunks : Int) ≤ pl.freelist_count then
        (some pl, st)
      else if ptr ∈ pl.freelist.take pl.freelist_count.toNat then
        (some pl, st)
      else
        (some { pl with
                  freelist := pl.freelist.set pl.freelist_count.toNat ptr
                  freelist_count := pl.freelist_count + 1 },
         st)

/-- One client call on a pool handle: an allocation request of a given
size, or a free of a given pointer. -/
inductive PoolOp where
  | alloc (size : Nat)
  | free (ptr : Nat)
deriving DecidableEq

/-- Run one call against the pool handle and heap. -/
def runOp (s : Option HnswMemoryPool × Heap) (op : PoolOp) :
    Option HnswMemoryPool × Heap :=
  match op with
  | PoolOp.alloc size => ((HnswPoolAlloc s.1 size s.2).2.1, (HnswPoolAlloc s.1 size s.2).2.2)
  | PoolOp.free ptr => HnswPoolFree s.1 ptr s.2

/-- Run a sequence of calls against the pool handle and heap. -/
def runOps (s : Option HnswMemoryPool × Heap) (ops : List PoolOp) :
    Option HnswMemoryPool × Heap :=
  ops.foldl runOp s

/-- Run a sequence of allocation requests, collecting the returned
pointers in order. -/
def allocSeq (pool : Option HnswMemoryPool) (sizes : List Nat) (st : Heap) :
    List Nat × Option HnswMemoryPool × Heap :=
  match sizes with
  | [] => ([], pool, st)
  | s :: rest =>
      ((HnswPoolAlloc pool s st).1 ::
         (allocSeq (HnswPoolAlloc pool s st).2.1 rest (HnswPoolAlloc pool s st).2.2).1,
       (allocSeq (HnswPoolAlloc pool s st).2.1 rest (HnswPoolAlloc pool s st).2.2).2)

/-- A concrete heap used by concrete instantiations: arbitrary garbage
contents, fresh allocations starting at address 1000. -/
def heap0 : Heap :=
  { contents := fun _ => 7, nextFresh := 1000, freed := [] }

/-- A concrete pool handle as `HnswCreatePool 8 2 100` builds it. -/
def pool1 : HnswMemoryPool :=
  { chunk_size := 8, total_chunks := 2, freelist_count := 2, pool_memory := 100,
    freelist := [100, 108], enabled := true }

/-- The handle `pool1` after one fast-path allocation popped chunk 108. -/
def pool2 : HnswMemoryPool :=
  { chunk_size := 8, total_chunks := 2, freelist_count := 1, pool_memory := 100,
    freelist := [100, 108], enabled := true }

/-- The handle `HnswCreatePool 0 2 100` builds: zero chunk size, so both
free-list entries coincide with the base address. -/
def poolZ : HnswMemoryPool :=
  { chunk_size := 0, total_chunks := 2, freelist_count := 2, pool_memory := 100,
    freelist := [100, 100], enabled := true }

/-- The spec's free-list invariant for a pool handle: bounded count,
free-list array of length `total_chunks`, every live entry inside the pool
range and chunk-aligned, and no duplicate live entries. -/
def PoolWF (pl : HnswMemoryPool) : Prop :=
  0 ≤ pl.freelist_count ∧ pl.freelist_count ≤ (pl.total_chunks : Int) ∧
  pl.freelist.length = pl.total_chunks ∧
  (∀ p ∈ pl.freelist.take pl.freelist_count.toNat,
    (pl.pool_memory ≤ p ∧ p < pl.pool_memory + pl.chunk_size * pl.total_chunks) ∧
    (p - pl.pool_memory) % pl.chunk_size = 0) ∧
  (pl.freelist.take pl.freelist_count.toNat).Nodup

/-- The handle reached from `pool1` by an allocation followed by a free of
the misaligned in-range pointer 101. -/
def poolBad : HnswMemoryPool :=
  { chunk_size := 8, total_chunks := 2, freelist_count := 2, pool_memory := 100,
    freelist := [100, 101], enabled := true }

/-! ### Helper lemmas -/

lemma take_set_succ (l : List Nat) (k : Nat) (a : Nat) (h : k < l.length) :
    (l.set k a).take (k + 1) = l.take k ++ [a] := by
  induction l generalizing k with
  | nil => simp at h
  | cons x xs ih =>
    cases k with
    | zero => simp
    | succ k =>
      simp only [List.set_cons_succ, List.take_succ_cons, List.cons_append,
        List.cons.injEq, true_and]
      exact ih k (by simpa using h)

/-- When the rounded product does not overflow, `HnswCreatePool` succeeds
and builds exactly this handle. -/
lemma createPool_ok (x n base : Nat) (hnov : MAXALIGN x * n < SIZE_MOD) :
    HnswCreatePool x n base =
      Except.ok
        { chunk_size := MAXALIGN x, total_chunks := n, freelist_count := (n : Int),
          pool_memory := base,
          freelist := (List.range n).map (fun i => base + i * MAXALIGN x),
          enabled := true } := by
  unfold HnswCreatePool
  rw [if_neg]
  rintro ⟨hn, hne⟩
  exact hne (by rw [Nat.mod_eq_of_lt hnov, Nat.mul_div_cancel _ hn])

/-- Whatever `HnswCreatePool` successfully returns is exactly this handle. -/
lemma create_ok_fields (x n base : Nat) (pl : HnswMemoryPool)
    (h : HnswCreatePool x n base = Except.ok pl) :
    pl = { chunk_size := MAXALIGN x, total_chunks := n, freelist_count := (n : Int),
           pool_memory := base,
           freelist := (List.range n).map (fun i => base + i * MAXALIGN x),
           enabled := true } := by
  unfold HnswCreatePool at h
  split_ifs at h
  exact (Except.ok.inj h).symm

/-! ### Claim theorems -/

/-- C5: when the product of the rounded chunk size and the chunk count
overflows the 64-bit `Size` type, `HnswCreatePool` reports the
program-limit error and returns no handle (so it allocates neither the
backing buffer nor the free-list array, both of which are acquired only
after the overflow check passes). -/
theorem C5_create_overflow_fails (x n base : Nat) (hint : n < 2 ^ 31)
    (hov : SIZE_MOD ≤ MAXALIGN x * n) :
    HnswCreatePool x n base = Except.error "memory pool size too large" := by
  have hn : 0 < n := by
    rcases Nat.eq_zero_or_pos n with h0 | h0
    · rw [h0, Nat.mul_zero] at hov
      exact absurd hov (by norm_num [SIZE_MOD])
    · exact h0
  have hcs : 1 ≤ MAXALIGN x := by
    by_contra hle
    push_neg at hle
    rw [Nat.lt_one_iff.mp hle, Nat.zero_mul] at hov
    exact absurd hov (by norm_num [SIZE_MOD])
  have hM : 0 < SIZE_MOD := by norm_num [SIZE_MOD]
  have hdiv1 : 1 ≤ MAXALIGN x * n / SIZE_MOD := (Nat.one_le_div_iff hM).mpr hov
  have hnM : n ≤ SIZE_MOD := by
    have : (2 : Nat) ^ 31 ≤ SIZE_MOD := by norm_num [SIZE_MOD]
    omega
  have hge : n ≤ SIZE_MOD * (MAXALIGN x * n / SIZE_MOD) :=
    le_trans (le_trans hnM (Nat.mul_one SIZE_MOD ▸ le_refl _))
      (Nat.mul_le_mul_left _ hdiv1)
  have hkey := Nat.mod_add_div (MAXALIGN x * n) SIZE_MOD
  have hmod : MAXALIGN x * n % SIZE_MOD ≤ (MAXALIGN x - 1) * n := by
    rw [Nat.sub_mul, Nat.one_mul]
    omega
  have hdivle : MAXALIGN x * n % SIZE_MOD / n ≤ MAXALIGN x - 1 :=
    le_trans (Nat.div_le_div_right hmod) (le_of_eq (Nat.mul_div_cancel _ hn))
  unfold HnswCreatePool
  rw [if_pos]
  exact ⟨hn, by omega⟩

/-- Witness for C5 at `chunk_size = 2 ^ 62`, `chunk_count = 8`. -/
theorem C5_witness :
    (8 < 2 ^ 31 ∧ SIZE_MOD ≤ MAXALIGN (2 ^ 62) * 8) ∧
      HnswCreatePool (2 ^ 62) 8 0 = Except.error "memory pool size too large" :=
  ⟨⟨by norm_num, by norm_num [SIZE_MOD, MAXALIGN]⟩,
   C5_create_overflow_fails (2 ^ 62) 8 0 (by norm_num)
     (by norm_num [SIZE_MOD, MAXALIGN])⟩

/-- C6: when the rounded product does not overflow, `HnswCreatePool`
returns a handle whose chunk size is the argument rounded up to the
alignment unit, whose `total_chunks` and `freelist_count` both equal the
chunk count, whose `enabled` flag is set, and whose free list holds
`pool_memory + i * chunk_size` at entry `i` for every `i < chunk_count`,
in ascending address order. -/
theorem C6_create_success_shape (x n base : Nat)
    (hnov : MAXALIGN x * n < SIZE_MOD) :
    ∃ pl, HnswCreatePool x n base = Except.ok pl ∧
      pl.chunk_size = MAXALIGN x ∧ pl.total_chunks = n ∧
      pl.freelist_count = (n : Int) ∧ pl.enabled = true ∧
      pl.pool_memory = base ∧ pl.freelist.length = n ∧
      (∀ i, i < n → pl.freelist.getD i 0 = pl.pool_memory + i * pl.chunk_size) ∧
      pl.freelist.Pairwise (· ≤ ·) := by
  refine ⟨_, createPool_ok x n base hnov, rfl, rfl, rfl, rfl, rfl, by simp, ?_, ?_⟩
  · intro i hi
    simp [List.getD_eq_getElem?_getD, List.getElem?_range hi]
  · rw [List.pairwise_map]
    exact (List.pairwise_lt_range n).imp
      (fun hij => Nat.add_le_add_left (Nat.mul_le_mul_right _ (le_of_lt hij)) base)

/-- Witness for C6 at `chunk_size = 10`, `chunk_count = 3`, base 100. -/
theorem C6_witness :
    MAXALIGN 10 * 3 < SIZE_MOD ∧
      (∃ pl, HnswCreatePool 10 3 100 = Except.ok pl ∧
        pl.chunk_size = MAXALIGN 10 ∧ pl.total_chunks = 3 ∧
        pl.freelist_count = (3 : Int) ∧ pl.enabled = true ∧
        pl.pool_memory = 100 ∧ pl.freelist.length = 3 ∧
        (∀ i, i < 3 → pl.freelist.getD i 0 = pl.pool_memory + i * pl.chunk_size) ∧
        pl.freelist.Pairwise (· ≤ ·)) :=
  ⟨by norm_num [SIZE_MOD, MAXALIGN],
   C6_create_success_shape 10 3 100 (by norm_num [SIZE_MOD, MAXALIGN])⟩

/-- C2: `HnswPoolAlloc` never fails: the fast path is taken exactly when
the handle is non-null, enabled, the request fits in one chunk and the
free list is non-empty, in which case it decrements `freelist_count`,
returns the last free-list entry and zeroes exactly the first `size`
bytes of that region; in every other case it returns a fresh, fully
zeroed buffer of exactly `size` bytes from the general-purpose allocator
and leaves the handle unchanged. -/
theorem C2_alloc_characterization (pool : Option HnswMemoryPool) (size : Nat)
    (st : Heap) (hfc : ∀ pl, pool = some pl → 0 ≤ pl.freelist_count) :
    (∀ pl, pool = some pl → pl.enabled = true → size ≤ pl.chunk_size →
        0 < pl.freelist_count →
        HnswPoolAlloc pool size st =
          (pl.freelist.getD (pl.freelist_count - 1).toNat 0,
           some { pl with freelist_count := pl.freelist_count - 1 },
           { st with
               contents :=
                 MemSet st.contents
                   (pl.freelist.getD (pl.freelist_count - 1).toNat 0) size })) ∧
    ((∀ pl, pool = some pl →
        pl.enabled = false ∨ pl.chunk_size < size ∨ pl.freelist_count ≤ 0) →
      HnswPoolAlloc pool size st = ((palloc0 st size).1, pool, (palloc0 st size).2)) := by
  constructor
  · rintro pl rfl hen hsz hpos
    have hc : ¬(pl.enabled = false ∨ pl.chunk_size < size ∨ pl.freelist_count = 0) := by
      rintro (h | h | h)
      · simp [hen] at h
      · omega
      · omega
    simp only [HnswPoolAlloc]
    rw [if_neg hc]
  · intro hcond
    match pool with
    | none => rfl
    | some pl =>
      have hc : pl.enabled = false ∨ pl.chunk_size < size ∨ pl.freelist_count = 0 := by
        rcases hcond pl rfl with h | h | h
        · exact Or.inl h
        · exact Or.inr (Or.inl h)
        · exact Or.inr (Or.inr (by have := hfc pl rfl; omega))
      simp only [HnswPoolAlloc]
      rw [if_pos hc]

/-- Witness for C2: fast-path allocation of 8 bytes from `pool1`. -/
theorem C2_witness :
    (∀ pl, some pool1 = some pl → 0 ≤ pl.freelist_count) ∧
      HnswPoolAlloc (some pool1) 8 heap0 =
        (pool1.freelist.getD (pool1.freelist_count - 1).toNat 0,
         some { pool1 with freelist_count := pool1.freelist_count - 1 },
         { heap0 with
             contents :=
               MemSet heap0.contents
                 (pool1.freelist.getD (pool1.freelist_count - 1).toNat 0) 8 }) :=
  ⟨fun pl h => by injection h with h2; subst h2; decide,
   (C2_alloc_characterization (some pool1) 8 heap0
       (fun pl h => by injection h with h2; subst h2; decide)).1
     pool1 rfl rfl (by decide) (by decide)⟩

/-- C3: `HnswPoolFree` forwards the pointer to the ordinary deallocator
exactly when it is non-null and the handle is null, the handle is
disabled, or the pointer lies outside
`[pool_memory, pool_memory + chunk_size * total_chunks)`; a null pointer
is a no-op; a forwarded free changes no pool field; and an in-range free
on an enabled handle is never forwarded. -/
theorem C3_free_forwarding (pool : Option HnswMemoryPool) (ptr : Nat) (st : Heap) :
    (ptr ≠ 0 →
      (pool = none ∨ ∃ pl, pool = some pl ∧
        (pl.enabled = false ∨ ptr < pl.pool_memory ∨
          pl.pool_memory + pl.chunk_size * pl.total_chunks ≤ ptr)) →
      HnswPoolFree pool ptr st = (pool, pfree st ptr)) ∧
    (ptr = 0 → HnswPoolFree pool ptr st = (pool, st)) ∧
    (∀ pl, pool = some pl → pl.enabled = true →
      pl.pool_memory ≤ ptr → ptr < pl.pool_memory + pl.chunk_size * pl.total_chunks →
      ((HnswPoolFree pool ptr st).2).freed = st.freed) := by
  refine ⟨?_, ?_, ?_⟩
  · intro hp0 hcase
    match pool with
    | none =>
        simp only [HnswPoolFree]
        rw [if_pos hp0]
    | some pl =>
        rcases hcase with h | ⟨pl2, hpl2, hdis⟩
        · exact absurd h (by simp)
        · injection hpl2 with he
          subst he
          simp only [HnswPoolFree]
          by_cases h1 : pl.enabled = false ∨ ptr = 0
          · rw [if_pos h1, if_pos hp0]
          · push_neg at h1
            rw [if_neg (not_or.mpr h1)]
            rcases hdis with hd | hd | hd
            · exact absurd hd h1.1
            · rw [if_pos (Or.inl hd)]
            · rw [if_pos (Or.inr hd)]
  · rintro rfl
    match pool with
    | none =>
        simp only [HnswPoolFree]
        rw [if_neg (by simp)]
    | some pl =>
        simp only [HnswPoolFree]
        rw [if_pos (Or.inr (by simp)), if_neg (by simp)]
  · rintro pl rfl hen hlo hhi
    simp only [HnswPoolFree]
    by_cases hptr : ptr = 0
    · rw [if_pos (Or.inr hptr), if_neg (by simp [hptr])]
    · rw [if_neg (not_or.mpr ⟨by simp [hen], hptr⟩),
        if_neg (not_or.mpr ⟨not_lt.mpr hlo, not_le.mpr hhi⟩)]
      split_ifs <;> rfl

/-- Witness for C3: freeing the out-of-pool pointer 500 through `pool1`. -/
theorem C3_witness :
    ((500 : Nat) ≠ 0 →
      (some pool1 = none ∨ ∃ pl, some pool1 = some pl ∧
        (pl.enabled = false ∨ 500 < pl.pool_memory ∨
          pl.pool_memory + pl.chunk_size * pl.total_chunks ≤ 500)) →
      HnswPoolFree (some pool1) 500 heap0 = (some pool1, pfree heap0 500)) ∧
    ((500 : Nat) = 0 → HnswPoolFree (some pool1) 500 heap0 = (some pool1, heap0)) ∧
    (∀ pl, some pool1 = some pl → pl.enabled = true →
      pl.pool_memory ≤ 500 → 500 < pl.pool_memory + pl.chunk_size * pl.total_chunks →
      ((HnswPoolFree (some pool1) 500 heap0).2).freed = heap0.freed) :=
  C3_free_forwarding (some pool1) 500 heap0

/-- C4: for an enabled handle and an in-range pointer, a free that finds
the pointer already on the free list returns with no state change, a free
arriving when `freelist_count = total_chunks` is dropped with no state
change, and after a successful push the same pointer occurs exactly once
on the free list while a repeated free of it changes nothing; all these
calls return normally. -/
theorem C4_free_misuse (pl : HnswMemoryPool) (ptr : Nat) (st : Heap)
    (hen : pl.enabled = true) (hp0 : ptr ≠ 0)
    (hlo : pl.pool_memory ≤ ptr)
    (hhi : ptr < pl.pool_memory + pl.chunk_size * pl.total_chunks)
    (hlen : pl.freelist.length = pl.total_chunks)
    (hfc0 : 0 ≤ pl.freelist_count) :
    (ptr ∈ pl.freelist.take pl.freelist_count.toNat →
      HnswPoolFree (some pl) ptr st = (some pl, st)) ∧
    (pl.freelist_count = (pl.total_chunks : Int) →
      HnswPoolFree (some pl) ptr st = (some pl, st)) ∧
    (ptr ∉ pl.freelist.take pl.freelist_count.toNat →
      pl.freelist_count < (pl.total_chunks : Int) →
      ∀ pl2, (HnswPoolFree (some pl) ptr st).1 = some pl2 →
        (pl2.freelist.take pl2.freelist_count.toNat).count ptr = 1 ∧
        ∀ st2, HnswPoolFree (some pl2) ptr st2 = (some pl2, st2)) := by
  have h1 : ¬(pl.enabled = false ∨ ptr = 0) := by
    rintro (h | h)
    · simp [hen] at h
    · exact hp0 h
  have h2 : ¬(ptr < pl.pool_memory ∨
      pl.pool_memory + pl.chunk_size * pl.total_chunks ≤ ptr) :=
    not_or.mpr ⟨not_lt.mpr hlo, not_le.mpr hhi⟩
  refine ⟨?_, ?_, ?_⟩
  · intro hmem
    simp only [HnswPoolFree]
    rw [if_neg h1, if_neg h2]
    by_cases hfull : (pl.total_chunks : Int) ≤ pl.freelist_count
    · rw [if_pos hfull]
    · rw [if_neg hfull, if_pos hmem]
  · intro heq
    simp only [HnswPoolFree]
    rw [if_neg h1, if_neg h2, if_pos (le_of_eq heq.symm)]
  · intro hmem hlt pl2 hpl2
    simp only [HnswPoolFree] at hpl2
    rw [if_neg h1, if_neg h2, if_neg (not_le.mpr hlt), if_neg hmem] at hpl2
    have hpl2' :
        ({ pl with
            freelist := pl.freelist.set pl.freelist_count.toNat ptr
            freelist_count := pl.freelist_count + 1 } : HnswMemoryPool) = pl2 :=
      Option.some.inj hpl2
    subst hpl2'
    have hidx : pl.freelist_count.toNat < pl.freelist.length := by
      rw [hlen]; omega
    have htn : (pl.freelist_count + 1).toNat = pl.freelist_count.toNat + 1 := by omega
    have htake :
        (pl.freelist.set pl.freelist_count.toNat ptr).take
            (pl.freelist_count.toNat + 1) =
          pl.freelist.take pl.freelist_count.toNat ++ [ptr] :=
      take_set_succ _ _ _ hidx
    constructor
    · simp only [htn, htake]
      rw [List.count_append]
      simp [List.count_eq_zero.mpr hmem]
    · intro st2
      simp only [HnswPoolFree]
      by_cases hfull2 : ((pl.total_chunks : Int) ≤ pl.freelist_count + 1)
      · rw [if_neg h1, if_neg h2, if_pos hfull2]
      · rw [if_neg h1, if_neg h2, if_neg hfull2,
          if_pos (by rw [htn, htake]; exact List.mem_append_right _ (by simp))]

/-- Witness for C4: pushing 108 into `pool2` and freeing it again. -/
theorem C4_witness :
    (pool2.enabled = true ∧ (108 : Nat) ≠ 0 ∧ pool2.pool_memory ≤ 108 ∧
      108 < pool2.pool_memory + pool2.chunk_size * pool2.total_chunks ∧
      pool2.freelist.length = pool2.total_chunks ∧ 0 ≤ pool2.freelist_count) ∧
    ((108 ∈ pool2.freelist.take pool2.freelist_count.toNat →
      HnswPoolFree (some pool2) 108 heap0 = (some pool2, heap0)) ∧
    (pool2.freelist_count = (pool2.total_chunks : Int) →
      HnswPoolFree (some pool2) 108 heap0 = (some pool2, heap0)) ∧
    (108 ∉ pool2.freelist.take pool2.freelist_count.toNat →
      pool2.freelist_count < (pool2.total_chunks : Int) →
      ∀ pl2, (HnswPoolFree (some pool2) 108 heap0).1 = some pl2 →
        (pl2.freelist.take pl2.freelist_count.toNat).count 108 = 1 ∧
        ∀ st2, HnswPoolFree (some pl2) 108 st2 = (some pl2, st2))) :=
  ⟨by refine ⟨rfl, by decide, by decide, by decide, by decide, by decide⟩,
   C4_free_misuse pool2 108 heap0 rfl (by decide) (by decide) (by decide)
     (by decide) (by decide)⟩

/-- The `freelist_count` bounds are preserved by one pool call, whatever
its argument. -/
lemma count_runOp (pl : HnswMemoryPool) (st : Heap) (op : PoolOp)
    (h0 : 0 ≤ pl.freelist_count) (h1 : pl.freelist_count ≤ (pl.total_chunks : Int)) :
    ∃ pl' st', runOp (some pl, st) op = (some pl', st') ∧
      0 ≤ pl'.freelist_count ∧ pl'.freelist_count ≤ (pl'.total_chunks : Int) := by
  cases op with
  | alloc size =>
      simp only [runOp, HnswPoolAlloc]
      by_cases hc : pl.enabled = false ∨ pl.chunk_size < size ∨ pl.freelist_count = 0
      · rw [if_pos hc]
        exact ⟨pl, _, rfl, h0, h1⟩
      · rw [if_neg hc]
        push_neg at hc
        refine ⟨_, _, rfl, ?_, ?_⟩ <;> simp <;> omega
  | free ptr =>
      simp only [runOp, HnswPoolFree]
      split_ifs with ha hb hc hd
      · exact ⟨pl, _, rfl, h0, h1⟩
      · exact ⟨pl, _, rfl, h0, h1⟩
      · exact ⟨pl, _, rfl, h0, h1⟩
      · exact ⟨pl, _, rfl, h0, h1⟩
      · exact ⟨pl, _, rfl, h0, h1⟩
      · refine ⟨{ pl with
            freelist := pl.freelist.set pl.freelist_count.toNat ptr
            freelist_count := pl.freelist_count + 1 }, st, rfl, ?_, ?_⟩
        · show (0 : Int) ≤ pl.freelist_count + 1
          omega
        · show pl.freelist_count + 1 ≤ (pl.total_chunks : Int)
          omega

/-- The `freelist_count` bounds are preserved by any call sequence. -/
lemma count_runOps (ops : List PoolOp) :
    ∀ (pl : HnswMemoryPool) (st : Heap),
      0 ≤ pl.freelist_count → pl.freelist_count ≤ (pl.total_chunks : Int) →
      ∃ pl' st', runOps (some pl, st) ops = (some pl', st') ∧
        0 ≤ pl'.freelist_count ∧ pl'.freelist_count ≤ (pl'.total_chunks : Int) := by
  induction ops with
  | nil => exact fun pl st h0 h1 => ⟨pl, st, rfl, h0, h1⟩
  | cons op rest ih =>
      intro pl st h0 h1
      obtain ⟨pl1, st1, heq, h0', h1'⟩ := count_runOp pl st op h0 h1
      obtain ⟨pl', st', heq', ha, hb⟩ := ih pl1 st1 h0' h1'
      refine ⟨pl', st', ?_, ha, hb⟩
      simp only [runOps, List.foldl_cons]
      rw [heq]
      simpa only [runOps] using heq'

/-- C1: starting from any handle returned by `HnswCreatePool`, after any
sequence of `HnswPoolAlloc` and `HnswPoolFree` calls the field
`freelist_count` satisfies `0 ≤ freelist_count ≤ total_chunks`. -/
theorem C1_freelist_count_bounds (x n base : Nat) (pl : HnswMemoryPool)
    (hc : HnswCreatePool x n base = Except.ok pl)
    (ops : List PoolOp) (st : Heap) (pl' : HnswMemoryPool)
    (h : (runOps (some pl, st) ops).1 = some pl') :
    0 ≤ pl'.freelist_count ∧ pl'.freelist_count ≤ (pl'.total_chunks : Int) := by
  have hpl := create_ok_fields x n base pl hc
  have h0 : 0 ≤ pl.freelist_count := by simp [hpl]
  have h1 : pl.freelist_count ≤ (pl.total_chunks : Int) := by simp [hpl]
  obtain ⟨pl2, st2, heq, ha, hb⟩ := count_runOps ops pl st h0 h1
  rw [heq] at h
  have he : pl2 = pl' := by simpa using h
  subst he
  exact ⟨ha, hb⟩

/-- Witness for C1: create, allocate 4 bytes, free a foreign pointer. -/
theorem C1_witness :
    (HnswCreatePool 8 2 100 = Except.ok pool1 ∧
      (runOps (some pool1, heap0) [PoolOp.alloc 4, PoolOp.free 500]).1 = some pool2) ∧
    (0 ≤ pool2.freelist_count ∧ pool2.freelist_count ≤ (pool2.total_chunks : Int)) :=
  ⟨⟨by rfl, by decide⟩,
   C1_freelist_count_bounds 8 2 100 pool1 (by rfl)
     [PoolOp.alloc 4, PoolOp.free 500] heap0 pool2 (by decide)⟩

/-- A handle with no chunks is never changed by a call: allocation always
falls back and every free is out of the (empty) pool range. -/
lemma zero_pool_step (pl : HnswMemoryPool) (hTC : pl.total_chunks = 0)
    (hFC : pl.freelist_count = 0) (op : PoolOp) (st : Heap) :
    (runOp (some pl, st) op).1 = some pl := by
  cases op with
  | alloc size =>
      simp only [runOp, HnswPoolAlloc]
      rw [if_pos (Or.inr (Or.inr hFC))]
  | free ptr =>
      simp only [runOp, HnswPoolFree]
      by_cases h1 : pl.enabled = false ∨ ptr = 0
      · rw [if_pos h1]
      · rw [if_neg h1, if_pos (show ptr < pl.pool_memory ∨
          pl.pool_memory + pl.chunk_size * pl.total_chunks ≤ ptr by
            rw [hTC, Nat.mul_zero]; omega)]

/-- A handle with no chunks is never changed by any call sequence. -/
lemma zero_pool_runOps (pl : HnswMemoryPool) (hTC : pl.total_chunks = 0)
    (hFC : pl.freelist_count = 0) (ops : List PoolOp) :
    ∀ st : Heap, (runOps (some pl, st) ops).1 = some pl := by
  induction ops with
  | nil => intro st; rfl
  | cons op rest ih =>
      intro st
      have h2 : runOp (some pl, st) op = (some pl, (runOp (some pl, st) op).2) :=
        Prod.ext (zero_pool_step pl hTC hFC op st) rfl
      simp only [runOps, List.foldl_cons]
      rw [h2]
      simpa only [runOps] using ih ((runOp (some pl, st) op).2)

/-- C10: with `chunk_count = 0`, `HnswCreatePool` never reports the
overflow error for any chunk size (the check is guarded by
`initial_chunks > 0`) and returns a handle with `total_chunks = 0` and
`freelist_count = 0`; on that handle every call sequence leaves the
handle unchanged, every allocation takes the fallback path, and every
free of a non-null pointer is out of the empty pool range and is
forwarded to the ordinary deallocator. -/
theorem C10_zero_chunk_pool (x base : Nat) :
    ∃ pl, HnswCreatePool x 0 base = Except.ok pl ∧
      pl.total_chunks = 0 ∧ pl.freelist_count = 0 ∧
      (∀ (ops : List PoolOp) (st : Heap), (runOps (some pl, st) ops).1 = some pl) ∧
      (∀ (size : Nat) (st : Heap), HnswPoolAlloc (some pl) size st =
        ((palloc0 st size).1, some pl, (palloc0 st size).2)) ∧
      (∀ (ptr : Nat) (st : Heap), ptr ≠ 0 →
        HnswPoolFree (some pl) ptr st = (some pl, pfree st ptr)) := by
  refine ⟨_, createPool_ok x 0 base (by norm_num [SIZE_MOD]), rfl, rfl,
    zero_pool_runOps _ rfl rfl, ?_, ?_⟩
  · intro size st
    simp only [HnswPoolAlloc]
    rw [if_pos (Or.inr (Or.inr (show ((0 : Nat) : Int) = 0 from rfl)))]
  · intro ptr st hptr
    simp only [HnswPoolFree]
    rw [if_neg (not_or.mpr ⟨by simp, hptr⟩),
      if_pos (show ptr < base ∨ base + MAXALIGN x * 0 ≤ ptr by omega)]

/-- Witness for C10 at `chunk_size = 5`, base 100. -/
theorem C10_witness :
    ∃ pl, HnswCreatePool 5 0 100 = Except.ok pl ∧
      pl.total_chunks = 0 ∧ pl.freelist_count = 0 ∧
      (∀ (ops : List PoolOp) (st : Heap), (runOps (some pl, st) ops).1 = some pl) ∧
      (∀ (size : Nat) (st : Heap), HnswPoolAlloc (some pl) size st =
        ((palloc0 st size).1, some pl, (palloc0 st size).2)) ∧
      (∀ (ptr : Nat) (st : Heap), ptr ≠ 0 →
        HnswPoolFree (some pl) ptr st = (some pl, pfree st ptr)) :=
  C10_zero_chunk_pool 5 100

/-- Shorter prefixes of a list are contained in longer ones. -/
lemma take_subset_take (l : List Nat) (m n : Nat) (h : m ≤ n) :
    l.take m ⊆ l.take n := by
  intro a ha
  rw [show l.take m = (l.take n).take m by
    rw [List.take_take, Nat.min_eq_left h]] at ha
  exact List.take_subset _ _ ha

/-- A freshly created handle satisfies the free-list invariant as soon as
the rounded chunk size is positive. -/
lemma create_WF (x n base : Nat) (pl : HnswMemoryPool) (hcs : 0 < MAXALIGN x)
    (hc : HnswCreatePool x n base = Except.ok pl) : PoolWF pl := by
  have hpl := create_ok_fields x n base pl hc
  subst hpl
  unfold PoolWF
  dsimp only
  have hlen : ((List.range n).map (fun i => base + i * MAXALIGN x)).length = n := by
    simp
  have htn : ((n : Int)).toNat = n := Int.toNat_natCast n
  have htake : ((List.range n).map (fun i => base + i * MAXALIGN x)).take
      ((n : Int)).toNat = (List.range n).map (fun i => base + i * MAXALIGN x) := by
    rw [htn]
    exact List.take_of_length_le (le_of_eq hlen)
  refine ⟨Int.natCast_nonneg n, le_refl _, hlen, ?_, ?_⟩
  · rw [htake]
    intro p hp
    obtain ⟨i, hi, rfl⟩ := List.mem_map.mp hp
    have hilt : i < n := List.mem_range.mp hi
    have hmul : i * MAXALIGN x < MAXALIGN x * n := by
      rw [Nat.mul_comm (MAXALIGN x) n]
      exact Nat.mul_lt_mul_of_lt_of_le hilt (le_refl _) hcs
    refine ⟨⟨Nat.le_add_right _ _, by omega⟩, ?_⟩
    rw [Nat.add_sub_cancel_left]
    exact Nat.mul_mod_left i (MAXALIGN x)
  · rw [htake]
    refine List.Nodup.map ?_ (List.nodup_range n)
    intro a b hab
    have hab2 : base + a * MAXALIGN x = base + b * MAXALIGN x := hab
    have : a * MAXALIGN x = b * MAXALIGN x := by omega
    exact Nat.eq_of_mul_eq_mul_right hcs this

/-- One pool call preserves the free-list invariant, provided the call is
not a free of a misaligned in-range pointer. -/
lemma WF_runOp (pl : HnswMemoryPool) (st : Heap) (op : PoolOp) (hwf : PoolWF pl)
    (halign : ∀ p, op = PoolOp.free p →
      pl.pool_memory ≤ p → p < pl.pool_memory + pl.chunk_size * pl.total_chunks →
      (p - pl.pool_memory) % pl.chunk_size = 0) :
    ∃ pl' st', runOp (some pl, st) op = (some pl', st') ∧ PoolWF pl' ∧
      pl'.pool_memory = pl.pool_memory ∧ pl'.chunk_size = pl.chunk_size ∧
      pl'.total_chunks = pl.total_chunks := by
  obtain ⟨h0, h1, hlen, hmem, hnd⟩ := hwf
  cases op with
  | alloc size =>
      simp only [runOp, HnswPoolAlloc]
      by_cases hc : pl.enabled = false ∨ pl.chunk_size < size ∨ pl.freelist_count = 0
      · rw [if_pos hc]
        exact ⟨pl, _, rfl, ⟨h0, h1, hlen, hmem, hnd⟩, rfl, rfl, rfl⟩
      · rw [if_neg hc]
        push_neg at hc
        refine ⟨_, _, rfl, ?_, rfl, rfl, rfl⟩
        unfold PoolWF
        dsimp only
        have hm : (pl.freelist_count - 1).toNat ≤ pl.freelist_count.toNat := by omega
        have hsub := take_subset_take pl.freelist _ _ hm
        refine ⟨by omega, by omega, hlen, fun p hp => hmem p (hsub hp), ?_⟩
        rw [show pl.freelist.take (pl.freelist_count - 1).toNat =
            (pl.freelist.take pl.freelist_count.toNat).take
              (pl.freelist_count - 1).toNat by
          rw [List.take_take, Nat.min_eq_left hm]]
        exact List.Nodup.sublist (List.take_sublist _ _) hnd
  | free ptr =>
      simp only [runOp, HnswPoolFree]
      by_cases hA : pl.enabled = false ∨ ptr = 0
      · rw [if_pos hA]
        exact ⟨pl, _, rfl, ⟨h0, h1, hlen, hmem, hnd⟩, rfl, rfl, rfl⟩
      · rw [if_neg hA]
        by_cases hB : ptr < pl.pool_memory ∨
            pl.pool_memory + pl.chunk_size * pl.total_chunks ≤ ptr
        · rw [if_pos hB]
          exact ⟨pl, _, rfl, ⟨h0, h1, hlen, hmem, hnd⟩, rfl, rfl, rfl⟩
        · rw [if_neg hB]
          by_cases hC : (pl.total_chunks : Int) ≤ pl.freelist_count
          · rw [if_pos hC]
            exact ⟨pl, _, rfl, ⟨h0, h1, hlen, hmem, hnd⟩, rfl, rfl, rfl⟩
          · rw [if_neg hC]
            by_cases hD : ptr ∈ pl.freelist.take pl.freelist_count.toNat
            · rw [if_pos hD]
              exact ⟨pl, _, rfl, ⟨h0, h1, hlen, hmem, hnd⟩, rfl, rfl, rfl⟩
            · rw [if_neg hD]
              push_neg at hA hB
              refine ⟨_, _, rfl, ?_, rfl, rfl, rfl⟩
              unfold PoolWF
              dsimp only
              have hidx : pl.freelist_count.toNat < pl.freelist.length := by omega
              have htn2 : (pl.freelist_count + 1).toNat =
                  pl.freelist_count.toNat + 1 := by omega
              have htake := take_set_succ pl.freelist pl.freelist_count.toNat ptr hidx
              rw [htn2, htake]
              refine ⟨by omega, by omega, by simp [hlen], ?_, ?_⟩
              · intro p hp
                rcases List.mem_append.mp hp with hp | hp
                · exact hmem p hp
                · have hpe : p = ptr := by simpa using hp
                  subst hpe
                  exact ⟨⟨by omega, by omega⟩,
                    halign p rfl (by omega) (by omega)⟩
              · rw [List.nodup_append]
                exact ⟨hnd, List.nodup_singleton ptr, by
                  rw [List.disjoint_singleton]; exact hD⟩

/-- The free-list invariant is preserved by any call sequence whose
in-range freed pointers are chunk-aligned. -/
lemma WF_runOps (ops : List PoolOp) :
    ∀ (pl : HnswMemoryPool) (st : Heap), PoolWF pl →
      (∀ p, PoolOp.free p ∈ ops →
        pl.pool_memory ≤ p → p < pl.pool_memory + pl.chunk_size * pl.total_chunks →
        (p - pl.pool_memory) % pl.chunk_size = 0) →
      ∃ pl' st', runOps (some pl, st) ops = (some pl', st') ∧ PoolWF pl' ∧
        pl'.pool_memory = pl.pool_memory ∧ pl'.chunk_size = pl.chunk_size ∧
        pl'.total_chunks = pl.total_chunks := by
  induction ops with
  | nil => exact fun pl st hwf _ => ⟨pl, st, rfl, hwf, rfl, rfl, rfl⟩
  | cons op rest ih =>
      intro pl st hwf halign
      obtain ⟨pl1, st1, heq, hwf1, hb, hcs, htc⟩ :=
        WF_runOp pl st op hwf
          (fun p hop hlo hhi =>
            halign p (by rw [← hop]; exact List.mem_cons_self _ _) hlo hhi)
      obtain ⟨pl', st', heq', hwf', hb', hcs', htc'⟩ :=
        ih pl1 st1 hwf1
          (fun p hp hlo hhi => by
            rw [hb] at hlo
            rw [hb, hcs, htc] at hhi
            rw [hb, hcs]
            exact halign p (List.mem_cons_of_mem _ hp) hlo hhi)
      refine ⟨pl', st', ?_, hwf', hb'.trans hb, hcs'.trans hcs, htc'.trans htc⟩
      simp only [runOps, List.foldl_cons]
      rw [heq]
      simpa only [runOps] using heq'

/-- C7 counterexample: the claim fails as stated.  From the handle built
by `HnswCreatePool 8 2 100`, the call sequence alloc 8 then free 101
(an in-range but misaligned pointer) leaves 101 on the live free list,
and `(101 - pool_memory) % chunk_size = 1 ≠ 0`. -/
theorem C7_counterexample :
    HnswCreatePool 8 2 100 = Except.ok pool1 ∧
    (runOps (some pool1, heap0) [PoolOp.alloc 8, PoolOp.free 101]).1 =
      some poolBad ∧
    101 ∈ poolBad.freelist.take poolBad.freelist_count.toNat ∧
    ¬(101 - poolBad.pool_memory) % poolBad.chunk_size = 0 :=
  ⟨rfl, by decide, by decide, by decide⟩

/-- C7 (amended): for a handle created with positive rounded chunk size,
after any call sequence in which every freed pointer that lies inside the
pool range is chunk-aligned, every live free-list entry lies inside
`[pool_memory, pool_memory + chunk_size * total_chunks)`, is
chunk-aligned, and no pointer occurs twice on the live free list. -/
theorem C7_freelist_invariant (x n base : Nat) (pl : HnswMemoryPool)
    (hcs : 0 < MAXALIGN x)
    (hc : HnswCreatePool x n base = Except.ok pl)
    (ops : List PoolOp)
    (halign : ∀ p, PoolOp.free p ∈ ops →
      pl.pool_memory ≤ p → p < pl.pool_memory + pl.chunk_size * pl.total_chunks →
      (p - pl.pool_memory) % pl.chunk_size = 0)
    (st : Heap) (pl' : HnswMemoryPool)
    (h : (runOps (some pl, st) ops).1 = some pl') :
    (∀ p ∈ pl'.freelist.take pl'.freelist_count.toNat,
      (pl'.pool_memory ≤ p ∧
        p < pl'.pool_memory + pl'.chunk_size * pl'.total_chunks) ∧
      (p - pl'.pool_memory) % pl'.chunk_size = 0) ∧
    (pl'.freelist.take pl'.freelist_count.toNat).Nodup := by
  have hwf := create_WF x n base pl hcs hc
  obtain ⟨pl2, st2, heq, hwf2, _, _, _⟩ := WF_runOps ops pl st hwf halign
  rw [heq] at h
  have he : pl2 = pl' := by simpa using h
  subst he
  exact ⟨hwf2.2.2.2.1, hwf2.2.2.2.2⟩

/-- Witness for the amended C7: create, allocate, free the aligned
chunk-base 100 (a double-free, dropped), landing in `pool2`. -/
theorem C7_witness :
    (0 < MAXALIGN 8 ∧ HnswCreatePool 8 2 100 = Except.ok pool1 ∧
      (∀ p, PoolOp.free p ∈ [PoolOp.alloc 8, PoolOp.free 100] →
        pool1.pool_memory ≤ p →
        p < pool1.pool_memory + pool1.chunk_size * pool1.total_chunks →
        (p - pool1.pool_memory) % pool1.chunk_size = 0) ∧
      (runOps (some pool1, heap0) [PoolOp.alloc 8, PoolOp.free 100]).1 =
        some pool2) ∧
    ((∀ p ∈ pool2.freelist.take pool2.freelist_count.toNat,
        (pool2.pool_memory ≤ p ∧
          p < pool2.pool_memory + pool2.chunk_size * pool2.total_chunks) ∧
        (p - pool2.pool_memory) % pool2.chunk_size = 0) ∧
      (pool2.freelist.take pool2.freelist_count.toNat).Nodup) :=
  ⟨⟨by decide, rfl,
    fun p hp hlo hhi => by simp at hp; subst hp; decide, by decide⟩,
   C7_freelist_invariant 8 2 100 pool1 (by decide) rfl
     [PoolOp.alloc 8, PoolOp.free 100]
     (fun p hp hlo hhi => by simp at hp; subst hp; decide)
     heap0 pool2 (by decide)⟩

/-- C8: round-trip reuse on a well-formed enabled handle: a fast-path
allocation pops pointer `p`; after arbitrary intermediate heap activity
(modelled by the arbitrary heap `st2`), freeing `p` pushes it back, and a
subsequent allocation of any size `k ≤ chunk_size` while the free list is
non-empty returns the same address `p` (last-freed-first-reused stack
discipline) with its first `k` bytes all zero. -/
theorem C8_roundtrip_reuse (pl : HnswMemoryPool) (st st2 : Heap) (s k : Nat)
    (hen : pl.enabled = true) (hbase : 0 < pl.pool_memory)
    (hs : s ≤ pl.chunk_size) (hk : k ≤ pl.chunk_size)
    (h0 : 0 < pl.freelist_count) (h1 : pl.freelist_count ≤ (pl.total_chunks : Int))
    (hlen : pl.freelist.length = pl.total_chunks)
    (hrange : ∀ p ∈ pl.freelist.take pl.freelist_count.toNat,
      pl.pool_memory ≤ p ∧ p < pl.pool_memory + pl.chunk_size * pl.total_chunks)
    (hnd : (pl.freelist.take pl.freelist_count.toNat).Nodup) :
    ∀ p pool1 st1, HnswPoolAlloc (some pl) s st = (p, pool1, st1) →
      ∀ pool2 st3, HnswPoolFree pool1 p st2 = (pool2, st3) →
        (HnswPoolAlloc pool2 k st3).1 = p ∧
        ∀ a, p ≤ a → a < p + k →
          ((HnswPoolAlloc pool2 k st3).2.2).contents a = 0 := by
  intro p pool1 st1 he1 pool2 st3 he2
  have hfast : ¬(pl.enabled = false ∨ pl.chunk_size < s ∨ pl.freelist_count = 0) := by
    rintro (h | h | h)
    · simp [hen] at h
    · omega
    · omega
  simp only [HnswPoolAlloc] at he1
  rw [if_neg hfast] at he1
  injection he1 with hp hrest
  injection hrest with hpool hst
  subst hpool
  subst hst
  have hmlt : (pl.freelist_count - 1).toNat < pl.freelist.length := by omega
  have hp_get : pl.freelist.getD (pl.freelist_count - 1).toNat 0 =
      pl.freelist[(pl.freelist_count - 1).toNat] := List.getD_eq_getElem _ _ hmlt
  have hpE : p = pl.freelist[(pl.freelist_count - 1).toNat] := hp.symm.trans hp_get
  have hfcsucc : pl.freelist_count.toNat = (pl.freelist_count - 1).toNat + 1 := by
    omega
  have htake_decomp : pl.freelist.take pl.freelist_count.toNat =
      pl.freelist.take (pl.freelist_count - 1).toNat ++
        [pl.freelist[(pl.freelist_count - 1).toNat]] := by
    rw [hfcsucc, List.take_succ, List.getElem?_eq_getElem hmlt]
    rfl
  have hmemp : p ∈ pl.freelist.take pl.freelist_count.toNat := by
    rw [hpE, htake_decomp]
    exact List.mem_append_right _ (by simp)
  have hpb := hrange p hmemp
  have hnotmem : p ∉ pl.freelist.take (pl.freelist_count - 1).toNat := by
    rw [htake_decomp, List.nodup_append, List.disjoint_singleton] at hnd
    rw [hpE]
    exact hnd.2.2
  -- the free of `p` pushes it back at the same slot
  have hA : ¬(pl.enabled = false ∨ p = 0) := by
    rintro (h | h)
    · simp [hen] at h
    · omega
  have hB : ¬(p < pl.pool_memory ∨
      pl.pool_memory + pl.chunk_size * pl.total_chunks ≤ p) :=
    not_or.mpr ⟨not_lt.mpr hpb.1, not_le.mpr hpb.2⟩
  have hC : ¬((pl.total_chunks : Int) ≤ pl.freelist_count - 1) := by omega
  simp only [HnswPoolFree] at he2
  rw [if_neg hA, if_neg hB, if_neg hC, if_neg hnotmem] at he2
  injection he2 with hpool2 hst3
  subst hpool2
  subst hst3
  -- the second allocation pops the restored slot
  have hfast2 : ¬(pl.enabled = false ∨ pl.chunk_size < k ∨
      pl.freelist_count - 1 + 1 = 0) := by
    rintro (h | h | h)
    · simp [hen] at h
    · omega
    · omega
  have hidx_eq : (pl.freelist_count - 1 + 1 - 1).toNat =
      (pl.freelist_count - 1).toNat := by omega
  have hmlt2 : (pl.freelist_count - 1).toNat <
      (pl.freelist.set (pl.freelist_count - 1).toNat p).length := by
    rw [List.length_set]
    exact hmlt
  have hq : (pl.freelist.set (pl.freelist_count - 1).toNat p).getD
      (pl.freelist_count - 1).toNat 0 = p := by
    rw [List.getD_eq_getElem _ _ hmlt2]
    exact List.getElem_set_self hmlt2
  constructor
  · simp only [HnswPoolAlloc]
    rw [if_neg hfast2]
    dsimp only
    rw [hidx_eq, hq]
  · intro a ha1 ha2
    simp only [HnswPoolAlloc]
    rw [if_neg hfast2]
    dsimp only
    rw [hidx_eq, hq]
    simp [MemSet, ha1, ha2]

/-- Witness for C8: from `pool1`, allocate 8 bytes (returns 108), free
108, allocate 4 bytes: 108 again, with bytes 108..111 zero. -/
theorem C8_witness :
    (pool1.enabled = true ∧ 0 < pool1.pool_memory ∧
      8 ≤ pool1.chunk_size ∧ 4 ≤ pool1.chunk_size ∧
      0 < pool1.freelist_count ∧
      pool1.freelist_count ≤ (pool1.total_chunks : Int) ∧
      pool1.freelist.length = pool1.total_chunks ∧
      (∀ p ∈ pool1.freelist.take pool1.freelist_count.toNat,
        pool1.pool_memory ≤ p ∧
        p < pool1.pool_memory + pool1.chunk_size * pool1.total_chunks) ∧
      (pool1.freelist.take pool1.freelist_count.toNat).Nodup) ∧
    ((HnswPoolAlloc (some pool1) 4
        (HnswPoolFree (HnswPoolAlloc (some pool1) 8 heap0).2.1 108 heap0).2).1 = 108 ∧
      ∀ a, 108 ≤ a → a < 108 + 4 →
        ((HnswPoolAlloc (some pool1) 4
            (HnswPoolFree (HnswPoolAlloc (some pool1) 8 heap0).2.1 108
              heap0).2).2.2).contents a = 0) :=
  ⟨⟨rfl, by decide, by decide, by decide, by decide, by decide, by decide,
    by decide, by decide⟩,
   C8_roundtrip_reuse pool1 heap0 heap0 8 4 rfl (by decide) (by decide)
     (by decide) (by decide) (by decide) (by decide) (by decide) (by decide)
     108 (some pool2)
     { heap0 with contents := MemSet heap0.contents 108 8 } rfl
     (some pool1) heap0 rfl⟩

/-- A run of allocation requests that all fit in a chunk and do not
exhaust the pool is served entirely from the free list, popping entries
from the top; the fallback fresh-address counter is untouched. -/
lemma allocSeq_fast (sizes : List Nat) :
    ∀ (pl : HnswMemoryPool) (st : Heap),
      pl.enabled = true → (∀ s ∈ sizes, s ≤ pl.chunk_size) →
      0 ≤ pl.freelist_count → sizes.length ≤ pl.freelist_count.toNat →
      (allocSeq (some pl) sizes st).1 =
        (List.range sizes.length).map
          (fun i => pl.freelist.getD (pl.freelist_count.toNat - 1 - i) 0) ∧
      (allocSeq (some pl) sizes st).2.1 =
        some { pl with freelist_count := pl.freelist_count - (sizes.length : Int) } ∧
      ((allocSeq (some pl) sizes st).2.2).nextFresh = st.nextFresh := by
  induction sizes with
  | nil =>
      intro pl st _ _ _ _
      refine ⟨rfl, ?_, rfl⟩
      simp [allocSeq]
  | cons s rest ih =>
      intro pl st hen hsz h0 hle
      simp only [List.length_cons] at hle
      have hfast : ¬(pl.enabled = false ∨ pl.chunk_size < s ∨
          pl.freelist_count = 0) := by
        rintro (h | h | h)
        · simp [hen] at h
        · exact absurd (hsz s (List.mem_cons_self _ _)) (by omega)
        · omega
      simp only [allocSeq, HnswPoolAlloc]
      rw [if_neg hfast]
      dsimp only
      obtain ⟨ih1, ih2, ih3⟩ :=
        ih { pl with freelist_count := pl.freelist_count - 1 }
          { st with
              contents :=
                MemSet st.contents
                  (pl.freelist.getD (pl.freelist_count - 1).toNat 0) s }
          hen (fun t ht => hsz t (List.mem_cons_of_mem _ ht))
          (by show (0 : Int) ≤ pl.freelist_count - 1; omega)
          (by show rest.length ≤ (pl.freelist_count - 1).toNat; omega)
      refine ⟨?_, ?_, ?_⟩
      · rw [ih1]
        simp only [List.length_cons, List.range_succ_eq_map, List.map_cons,
          List.map_map]
        congr 1
        · congr 1
          omega
        · refine List.map_congr_left (fun i hi => ?_)
          show pl.freelist.getD ((pl.freelist_count - 1).toNat - 1 - i) 0 =
            pl.freelist.getD (pl.freelist_count.toNat - 1 - (i + 1)) 0
          congr 1
          omega
      · rw [ih2]
        simp only [List.length_cons]
        rw [show pl.freelist_count - 1 - (rest.length : Int) =
          pl.freelist_count - ((rest.length + 1 : Nat) : Int) by push_cast; ring]
      · exact ih3

/-- C9 counterexample: the claim fails as stated for `chunk_size = 0`.
`HnswCreatePool 0 2 100` succeeds, and two in-budget allocations both
return the base address 100, so the addresses are not pairwise distinct
(and, the pool range being empty, not inside it either). -/
theorem C9_counterexample :
    HnswCreatePool 0 2 100 = Except.ok poolZ ∧
    (allocSeq (some poolZ) [0, 0] heap0).1 = [100, 100] ∧
    ¬((allocSeq (some poolZ) [0, 0] heap0).1).Nodup ∧
    ¬(100 < poolZ.pool_memory + poolZ.chunk_size * poolZ.total_chunks) :=
  ⟨rfl, by decide, by decide, by decide⟩

/-- C9 (amended): for a handle created with positive rounded chunk size,
`chunk_count` allocations each of size at most `chunk_size` return
pairwise-distinct addresses inside
`[pool_memory, pool_memory + chunk_size * total_chunks)`, and the next
allocation falls back to the general-purpose allocator, returning an
address outside that range (the fresh-allocation area lying beyond the
pool, as the host allocator guarantees disjointness). -/
theorem C9_exhaustion_fallback (x n base : Nat) (pl : HnswMemoryPool)
    (hcs : 0 < MAXALIGN x)
    (hc : HnswCreatePool x n base = Except.ok pl)
    (sizes : List Nat) (hlen : sizes.length = n)
    (hsz : ∀ s ∈ sizes, s ≤ MAXALIGN x)
    (extra : Nat) (st : Heap)
    (hfresh : base + MAXALIGN x * n ≤ st.nextFresh) :
    ((allocSeq (some pl) sizes st).1).Nodup ∧
    (∀ p ∈ (allocSeq (some pl) sizes st).1,
      base ≤ p ∧ p < base + MAXALIGN x * n) ∧
    base + MAXALIGN x * n ≤
      (HnswPoolAlloc (allocSeq (some pl) sizes st).2.1 extra
        (allocSeq (some pl) sizes st).2.2).1 := by
  have hpl := create_ok_fields x n base pl hc
  subst hpl
  obtain ⟨ih1, ih2, ih3⟩ := allocSeq_fast sizes
    { chunk_size := MAXALIGN x, total_chunks := n, freelist_count := (n : Int),
      pool_memory := base,
      freelist := (List.range n).map (fun i => base + i * MAXALIGN x),
      enabled := true }
    st rfl hsz (Int.natCast_nonneg n) (by simp [hlen])
  have hgetD : ∀ i, i < n →
      ((List.range n).map (fun j => base + j * MAXALIGN x)).getD (n - 1 - i) 0 =
        base + (n - 1 - i) * MAXALIGN x := by
    intro i hi
    have hlt : n - 1 - i < n := by omega
    simp [List.getD_eq_getElem?_getD, List.getElem?_range hlt]
  have hidx : ((n : Int)).toNat = n := Int.toNat_natCast n
  refine ⟨?_, ?_, ?_⟩
  · rw [ih1]
    refine List.Nodup.map_on ?_ (List.nodup_range _)
    intro a ha b hb hab
    rw [List.mem_range, hlen] at ha hb
    rw [hidx, hgetD a ha, hgetD b hb] at hab
    have : (n - 1 - a) * MAXALIGN x = (n - 1 - b) * MAXALIGN x := by omega
    have := Nat.eq_of_mul_eq_mul_right hcs this
    omega
  · rw [ih1]
    intro p hp
    obtain ⟨i, hi, rfl⟩ := List.mem_map.mp hp
    rw [List.mem_range, hlen] at hi
    rw [hidx, hgetD i hi]
    have hmul : (n - 1 - i) * MAXALIGN x < MAXALIGN x * n := by
      rw [Nat.mul_comm (MAXALIGN x) n]
      exact Nat.mul_lt_mul_of_lt_of_le (by omega) (le_refl _) hcs
    exact ⟨Nat.le_add_right _ _, by omega⟩
  · rw [ih2]
    simp only [HnswPoolAlloc]
    rw [if_pos (Or.inr (Or.inr
      (show (n : Int) - (sizes.length : Int) = 0 by rw [hlen]; ring)))]
    dsimp only [palloc0]
    rw [ih3]
    exact hfresh

/-- Witness for the amended C9: `HnswCreatePool 8 2 100`, two allocations
of 8 bytes, then one more request. -/
theorem C9_witness :
    (0 < MAXALIGN 8 ∧ HnswCreatePool 8 2 100 = Except.ok pool1 ∧
      ([8, 8] : List Nat).length = 2 ∧ (∀ s ∈ ([8, 8] : List Nat), s ≤ MAXALIGN 8) ∧
      100 + MAXALIGN 8 * 2 ≤ heap0.nextFresh) ∧
    (((allocSeq (some pool1) [8, 8] heap0).1).Nodup ∧
      (∀ p ∈ (allocSeq (some pool1) [8, 8] heap0).1,
        100 ≤ p ∧ p < 100 + MAXALIGN 8 * 2) ∧
      100 + MAXALIGN 8 * 2 ≤
        (HnswPoolAlloc (allocSeq (some pool1) [8, 8] heap0).2.1 8
          (allocSeq (some pool1) [8, 8] heap0).2.2).1) :=
  ⟨⟨by decide, rfl, by decide, by decide, by decide⟩,
   C9_exhaustion_fallback 8 2 100 pool1 (by decide) rfl [8, 8] (by decide)
     (by decide) 8 heap0 (by decide)⟩

end HnswPool
